import Mathlib

/-!
Verification of the OAI-PMH harvesting engine of IndexJournalDataScraping.

The development shallowly embeds the JavaScript sources:
  src/processors/oaiDataProcessor.js  (HTTP pagination state machine, URL
  builders, error classifier) and
  src/processors/xmlArticleProcessor.js  (Dublin-Core record normalizer),
together with the batch-assembly step of src/handler.js.

JavaScript strings are modelled as
`List Char`; JavaScript objects whose key sets are fixed by the code are
modelled as structures; the parsed-XML value shapes produced by xml2js
(string, object with a text key and attribute keys, array) are modelled by
inductive types. Absent object properties and JavaScript null are both
modelled by `Option.none` where the code only distinguishes them by
truthiness. Impure inputs of the code (the HTTP responses of the remote
repository, the wall clock read by new Date().toISOString()) are passed to
the embedded functions as explicit arguments.
-/

/-- JavaScript strings, modelled as their character sequences. -/
abbrev JStr := List Char

/-- Character list of a Lean string literal. -/
def jstr (s : String) : JStr := s.data

/-- Whitespace characters removed by JavaScript String.prototype.trim
(the code only ever trims XML text, where these four cover the content). -/
def isJsWs (c : Char) : Bool :=
  c == ' ' || c == '\t' || c == '\n' || c == '\r'

/-- JavaScript String.prototype.trim: drop whitespace from both ends. -/
def jsTrim (s : JStr) : JStr :=
  ((s.dropWhile isJsWs).reverse.dropWhile isJsWs).reverse

/-- Truthiness of a JavaScript string-or-absent value: present and
non-empty. -/
def truthyStr (o : Option JStr) : Bool :=
  match o with
  | some s => !s.isEmpty
  | none => false

/-- Decimal rendering of a number, as used by JavaScript template strings
interpolating an HTTP status code. -/
def natToJStr (n : Nat) : JStr := (Nat.repr n).data

/-- Model of a JavaScript Error-like object as observed by getErrorCode
(oaiDataProcessor.js lines 332-392): `name` is the error class name
(absent for plain object literals), `code` the OS or library error code,
`responseStatus` the value of error.response?.status, `message` the
message text. -/
structure JsError where
  name : Option JStr
  code : Option JStr
  responseStatus : Option Nat
  message : JStr
deriving DecidableEq

/-- Embeds getNetworkErrorCode (oaiDataProcessor.js lines 332-340): a
fixed map over error.code, null when the code is absent or unknown. -/
def getNetworkErrorCode (e : JsError) : Option JStr :=
  match e.code with
  | some c =>
    if c = jstr "ECONNREFUSED" then some (jstr "CONNECTION_REFUSED")
    else if c = jstr "ENOTFOUND" then some (jstr "DNS_RESOLUTION_FAILED")
    else if c = jstr "ETIMEDOUT" then some (jstr "TIMEOUT_ERROR")
    else if c = jstr "ECONNRESET" then some (jstr "CONNECTION_RESET")
    else none
  | none => none

/-- Embeds getHttpErrorCode (oaiDataProcessor.js lines 345-352): derives a
code from error.response?.status; a falsy status (absent, or the number 0)
yields null. -/
def getHttpErrorCode (e : JsError) : Option JStr :=
  match e.responseStatus with
  | some status =>
    if status = 0 then none
    else if 400 ≤ status ∧ status < 500 then
      some (jstr "HTTP_CLIENT_ERROR_" ++ natToJStr status)
    else if 500 ≤ status ∧ status < 600 then
      some (jstr "HTTP_SERVER_ERROR_" ++ natToJStr status)
    else some (jstr "HTTP_ERROR_" ++ natToJStr status)
  | none => none

/-- Embeds getAxiosErrorCode (oaiDataProcessor.js lines 357-365): null
unless error.name is exactly AxiosError, then a fixed map over error.code
with fallback AXIOS_ERROR. -/
def getAxiosErrorCode (e : JsError) : Option JStr :=
  if e.name ≠ some (jstr "AxiosError") then none
  else if e.code = some (jstr "ECONNABORTED") then some (jstr "REQUEST_TIMEOUT")
  else if e.code = some (jstr "ERR_NETWORK") then some (jstr "NETWORK_ERROR")
  else some (jstr "AXIOS_ERROR")

/-- Embeds getGenericErrorCode (oaiDataProcessor.js lines 370-377): a
fixed map over error.name for runtime error classes. -/
def getGenericErrorCode (e : JsError) : Option JStr :=
  if e.name = some (jstr "TypeError") then some (jstr "TYPE_ERROR")
  else if e.name = some (jstr "SyntaxError") then some (jstr "SYNTAX_ERROR")
  else if e.name = some (jstr "ReferenceError") then some (jstr "REFERENCE_ERROR")
  else none

/-- Embeds getErrorCode (oaiDataProcessor.js lines 382-392): null error
yields UNKNOWN_ERROR, otherwise the first non-null of the four bucket
classifiers, with final fallback UNKNOWN_ERROR. Every bucket returns a
non-empty string, so the JavaScript chained-or over strings coincides
with the first-some chain. -/
def getErrorCode (e : Option JsError) : JStr :=
  match e with
  | none => jstr "UNKNOWN_ERROR"
  | some err =>
    match getNetworkErrorCode err with
    | some c => c
    | none =>
      match getHttpErrorCode err with
      | some c => c
      | none =>
        match getAxiosErrorCode err with
        | some c => c
        | none =>
          match getGenericErrorCode err with
          | some c => c
          | none => jstr "UNKNOWN_ERROR"

/-- Embeds the shared URL normalization step
`website.replace(/\/oai\/?$/, "")` of the URL builders
(oaiDataProcessor.js lines 245-267). The regular expression is anchored
at the end of the string, so it matches exactly when the string ends in
"/oai" or "/oai/", and the replacement removes that suffix. -/
def replaceOaiSuffix (s : JStr) : JStr :=
  if (jstr "/oai/").isSuffixOf s then s.take (s.length - 5)
  else if (jstr "/oai").isSuffixOf s then s.take (s.length - 4)
  else s

/-- Embeds buildIdentifyUrl (oaiDataProcessor.js lines 245-249). -/
def buildIdentifyUrl (website : JStr) : JStr :=
  replaceOaiSuffix website ++ jstr "/oai?verb=Identify"

/-- Embeds buildListRecordsUrl (oaiDataProcessor.js lines 254-258). -/
def buildListRecordsUrl (website : JStr) : JStr :=
  replaceOaiSuffix website ++ jstr "/oai?verb=ListRecords&metadataPrefix=oai_dc"

/-- Batch size used by the batch-assembly step (handler.js line 108). -/
def BATCH_SIZE : Nat := 50

/-- Embeds the batch-assembly loop of createPageCallback (handler.js
lines 109-112): `for (let i = 0; i < articles.length; i += BATCH_SIZE)
batches.push(articles.slice(i, i + BATCH_SIZE))`, phrased as structural
chunking (each loop step appends the next slice of at most BATCH_SIZE
elements and advances past it). -/
def chunkBatches {α : Type} (articles : List α) : List (List α) :=
  match articles with
  | [] => []
  | a :: rest =>
    (a :: rest).take BATCH_SIZE :: chunkBatches ((a :: rest).drop BATCH_SIZE)
termination_by articles.length
decreasing_by
  simp [BATCH_SIZE]
  omega

/-- Parsed-XML scalar shapes produced by xml2js for one Dublin-Core
value (explicitArray false, mergeAttrs true): a bare string, or an object
carrying the text node under the underscore key together with the
attribute keys probed for the language lookup. -/
inductive DcLeaf where
  | lstr (s : JStr)
  | lobj (text : Option JStr) (xmlLang : Option JStr) (lang : Option JStr)
deriving DecidableEq

/-- One Dublin-Core field as consumed by the extractors of
xmlArticleProcessor.js: a scalar, or an array of scalars (with the
xml2js options in use, repeated elements parse to an array whose entries
are the scalar shapes, so the recursive first-element probe of the code
lands on a scalar). -/
inductive DcField where
  | leaf (l : DcLeaf)
  | farr (items : List DcLeaf)
deriving DecidableEq

/-- Embeds the scalar cases of extractValue (xmlArticleProcessor.js lines
595-611): a falsy value (the empty string) yields null; a string is
trimmed; an object yields its trimmed underscore text when that text is a
truthy string, else null. -/
def extractLeafValue (l : DcLeaf) : Option JStr :=
  match l with
  | .lstr s => if s.isEmpty then none else some (jsTrim s)
  | .lobj t _ _ =>
    match t with
    | some u => if u.isEmpty then none else some (jsTrim u)
    | none => none

/-- Embeds extractValue (xmlArticleProcessor.js lines 595-611). An absent
field yields null; a scalar is handled by the scalar cases; an array
defers to its first element (a scalar), null when empty. -/
def extractValue (field : Option DcField) : Option JStr :=
  match field with
  | none => none
  | some (.leaf l) => extractLeafValue l
  | some (.farr []) => none
  | some (.farr (h :: _)) => extractLeafValue h

/-- Embeds the scalar cases of extractValueWithLang (xmlArticleProcessor.js
lines 618-640): the language is the first truthy of the xml:lang
attribute and the lang attribute, else null; a bare string carries no
language. -/
def extractLeafValueWithLang (l : DcLeaf) : Option JStr × Option JStr :=
  match l with
  | .lstr s => if s.isEmpty then (none, none) else (some (jsTrim s), none)
  | .lobj t xl lg =>
    match t with
    | some u =>
      if u.isEmpty then (none, none)
      else (some (jsTrim u), if truthyStr xl then xl else if truthyStr lg then lg else none)
    | none => (none, none)

/-- Embeds extractValueWithLang (xmlArticleProcessor.js lines 618-640):
value and language of a language-tagged field; an array defers to its
first element. -/
def extractValueWithLang (field : Option DcField) : Option JStr × Option JStr :=
  match field with
  | none => (none, none)
  | some (.leaf l) => extractLeafValueWithLang l
  | some (.farr []) => (none, none)
  | some (.farr (h :: _)) => extractLeafValueWithLang h

/-- Embeds the `singleValue ? [singleValue] : []` step of
extractArrayValue: a truthy single value becomes a one-element list. -/
def jsSingleton (v : Option JStr) : List JStr :=
  match v with
  | some s => if s.isEmpty then [] else [s]
  | none => []

/-- Embeds extractArrayValue (xmlArticleProcessor.js lines 645-654): a
falsy field yields the empty list; an array maps the element extraction
over its entries keeping the non-null results; any other value is wrapped
by the truthy-singleton step. -/
def extractArrayValue (field : Option DcField) : List JStr :=
  match field with
  | none => []
  | some (.leaf l) => jsSingleton (extractLeafValue l)
  | some (.farr items) => (items.map extractLeafValue).filterMap id

/-- Record header as consumed by parseIndividualRecord (the code reads
record.header with fallback to the empty object; an absent header is the
record whose three fields are all absent). -/
structure OaiHeader where
  identifier : Option JStr
  datestamp : Option JStr
  setSpec : Option JStr
deriving DecidableEq

/-- Dublin-Core payload of one record. The code reads each field under
its dc-prefixed key with fallback to the bare key
(metadata['oai_dc:dc'] || metadata.dc, dc['dc:title'] || dc.title, and so
on); the model exposes one slot per field standing for whichever key is
present, and an absent dc object is the payload whose slots are all
absent. -/
structure DcMetadata where
  title : Option DcField
  creator : Option DcField
  subject : Option DcField
  description : Option DcField
  publisher : Option DcField
  date : Option DcField
  typeField : Option DcField
  format : Option DcField
  identifier : Option DcField
  source : Option DcField
  language : Option DcField
  relation : Option DcField
deriving DecidableEq

/-- One parsed ListRecords record as consumed by parseIndividualRecord. -/
structure OaiRecord where
  header : OaiHeader
  dc : DcMetadata
deriving DecidableEq

/-- Values appearing in the normalized record objects: strings, arrays of
strings, numbers (the recordIndex of a fallback record), and the
null-or-undefined slot. -/
inductive JsVal where
  | vstr (s : JStr)
  | varr (l : List JStr)
  | vnum (n : Nat)
  | vnull
deriving DecidableEq

/-- A string-or-absent value as stored in an object slot: null when
absent. -/
def optVal (o : Option JStr) : JsVal :=
  match o with
  | some s => .vstr s
  | none => .vnull

/-- Embeds removeNullValues (xmlArticleProcessor.js lines 659-670): keep
an entry unless its value is null or undefined or an empty array. -/
def keepVal (v : JsVal) : Bool :=
  match v with
  | .vnull => false
  | .varr l => !l.isEmpty
  | _ => true

/-- Embeds removeNullValues: the normalized object as an ordered list of
key-value entries with the null, undefined and empty-array entries
removed. -/
def removeNullValues (obj : List (String × JsVal)) : List (String × JsVal) :=
  obj.filter (fun kv => keepVal kv.2)

/-- Embeds a conditional spread `...(cond && then-entry)` where the
condition is the truthiness of the stored string (used for title_lang,
description_lang, publisher_lang, datestamp and setSpec entries of the
article literal). -/
def condEntry (key : String) (v : Option JStr) : List (String × JsVal) :=
  match v with
  | some s => if s.isEmpty then [] else [(key, .vstr s)]
  | none => []

/-- Embeds the identifier slot of the article literal
(xmlArticleProcessor.js line 561): the extracted Dublin-Core identifier
when truthy, else the raw header identifier (undefined when the header
has none). -/
def identifierVal (r : OaiRecord) : JsVal :=
  match extractValue r.dc.identifier with
  | some v => if v.isEmpty then optVal r.header.identifier else .vstr v
  | none => optVal r.header.identifier

/-- Embeds the article object literal of parseIndividualRecord
(xmlArticleProcessor.js lines 528-575) before removeNullValues, as its
ordered entry list. `now` is the value of new Date().toISOString(). -/
def articleEntries (r : OaiRecord) (journalKey : Option JStr) (now : JStr) :
    List (String × JsVal) :=
  [("journal_key", optVal journalKey),
   ("created_at", .vstr now),
   ("type", .vstr (jstr "ListRecords")),
   ("title", optVal (extractValueWithLang r.dc.title).1)]
  ++ condEntry "title_lang" (extractValueWithLang r.dc.title).2
  ++ [("creator", optVal (extractValue r.dc.creator)),
      ("subjects", .varr (extractArrayValue r.dc.subject)),
      ("description", optVal (extractValueWithLang r.dc.description).1)]
  ++ condEntry "description_lang" (extractValueWithLang r.dc.description).2
  ++ [("publisher", optVal (extractValueWithLang r.dc.publisher).1)]
  ++ condEntry "publisher_lang" (extractValueWithLang r.dc.publisher).2
  ++ [("date", optVal (extractValue r.dc.date)),
      ("types", .varr (extractArrayValue r.dc.typeField)),
      ("format", optVal (extractValue r.dc.format)),
      ("identifier", identifierVal r),
      ("sources", .varr (extractArrayValue r.dc.source)),
      ("language", optVal (extractValue r.dc.language)),
      ("relation", optVal (extractValue r.dc.relation))]
  ++ condEntry "datestamp" r.header.datestamp
  ++ condEntry "setSpec" r.header.setSpec

/-- Message of the TypeError raised when the record element is null and
the code reads record.header (the only failure mode of the
parseIndividualRecord try block realizable from parsed XML input); the
character 39 codes the quote Node places around the property name. -/
def nullHeaderMsg : JStr :=
  jstr "Cannot read properties of null (reading " ++ [Char.ofNat 39]
    ++ jstr "header" ++ [Char.ofNat 39] ++ jstr ")"

/-- Embeds the catch branch of parseIndividualRecord
(xmlArticleProcessor.js lines 580-589): the fallback record emitted when
normalizing one record raises, carrying the raised message. Note the
fallback is returned without removeNullValues. -/
def parseErrorRecord (recordIndex : Nat) (journalKey : Option JStr)
    (now : JStr) (msg : JStr) : List (String × JsVal) :=
  [("journal_key", optVal journalKey),
   ("created_at", .vstr now),
   ("type", .vstr (jstr "ListRecords")),
   ("recordIndex", .vnum recordIndex),
   ("error", .vstr msg),
   ("status", .vstr (jstr "parse_error"))]

/-- Embeds parseIndividualRecord (xmlArticleProcessor.js lines 516-590).
The argument is the parsed record element; `none` models a null element,
on which the try block raises reading record.header and the catch
produces the fallback record. -/
def parseIndividualRecord (record : Option OaiRecord) (recordIndex : Nat)
    (journalKey : Option JStr) (now : JStr) : List (String × JsVal) :=
  match record with
  | some r => removeNullValues (articleEntries r journalKey now)
  | none => parseErrorRecord recordIndex journalKey now nullHeaderMsg

/-- Parsed Identify element as consumed by parseIdentifyXml. -/
structure IdentifyNode where
  repositoryName : Option JStr
  baseURL : Option JStr
  protocolVersion : Option JStr
  adminEmail : Option JStr
  earliestDatestamp : Option JStr
  deletedRecord : Option JStr
  granularity : Option JStr
  compression : Option JStr
  description : Option JStr
deriving DecidableEq

/-- Embeds a slot `identify.field || null` of the Identify literal: the
field value when truthy, else null. -/
def orNullVal (o : Option JStr) : JsVal :=
  match o with
  | some s => if s.isEmpty then .vnull else .vstr s
  | none => .vnull

/-- Embeds the Identify object literal of parseIdentifyXml
(xmlArticleProcessor.js lines 444-457) before removeNullValues. -/
def identifyEntries (idn : IdentifyNode) (journalKey : Option JStr)
    (now : JStr) : List (String × JsVal) :=
  [("journal_key", optVal journalKey),
   ("created_at", .vstr now),
   ("type", .vstr (jstr "Identify")),
   ("repositoryName", orNullVal idn.repositoryName),
   ("baseURL", orNullVal idn.baseURL),
   ("protocolVersion", orNullVal idn.protocolVersion),
   ("adminEmail", orNullVal idn.adminEmail),
   ("earliestDatestamp", orNullVal idn.earliestDatestamp),
   ("deletedRecord", orNullVal idn.deletedRecord),
   ("granularity", orNullVal idn.granularity),
   ("compression", orNullVal idn.compression),
   ("description", orNullVal idn.description)]

/-- Embeds parseIdentifyXml (xmlArticleProcessor.js lines 430-464) after
XML parsing: the argument is result?.['OAI-PMH']?.Identify, absent when
the parsed document lacks the element, in which case the function
rethrows the structure error with its prefix. -/
def parseIdentifyXml (parsed : Option IdentifyNode) (journalKey : Option JStr)
    (now : JStr) : Except JStr (List (String × JsVal)) :=
  match parsed with
  | none => .error (jstr "Failed to parse Identify XML: Invalid Identify XML structure")
  | some idn => .ok (removeNullValues (identifyEntries idn journalKey now))

/-- Shapes of the resumptionToken slot of a parsed ListRecords element as
probed by extractResumptionTokenFromParsed: absent, a bare string, or an
object exposing the text node under the underscore key and the attribute
object under the dollar key (whose only probed entry is resumptionToken). -/
inductive TokenField where
  | absent
  | tstr (s : JStr)
  | tobj (text : Option JStr) (attrToken : Option JStr)
deriving DecidableEq

/-- Embeds extractResumptionTokenFromParsed (oaiDataProcessor.js lines
272-302): a falsy slot yields null; a string is returned as is; an object
yields its truthy underscore text, else its truthy dollar attribute, else
null. The three dollar-key probes of the code read the same property and
are one case here. -/
def extractResumptionTokenFromParsed (tok : TokenField) : Option JStr :=
  match tok with
  | .absent => none
  | .tstr s => if s.isEmpty then none else some s
  | .tobj t a =>
    if truthyStr t then t
    else if truthyStr a then a
    else none

/-- Embeds the record slot of a parsed ListRecords element: absent (or
any falsy value), a single record object, or an array of record elements
(whose entries may be null, the shape on which normalization fails). -/
inductive RecordField where
  | absent
  | single (r : OaiRecord)
  | arr (rs : List (Option OaiRecord))

/-- Parsed ListRecords element: its record slot and resumptionToken slot. -/
structure ListRecordsNode where
  record : RecordField
  resumptionToken : TokenField

/-- Embeds the record-list normalization shared by processListRecordsPage
and parseListRecordsXml: a falsy record slot is no records, a non-array
slot is wrapped in a one-element list, an array is taken as is. -/
def lrRecords (f : RecordField) : List (Option OaiRecord) :=
  match f with
  | .absent => []
  | .single r => [some r]
  | .arr rs => rs

/-- Embeds parseListRecordsXml (xmlArticleProcessor.js lines 472-507)
after XML parsing: the argument is result?.['OAI-PMH']?.ListRecords,
absent when the parsed document lacks the element, in which case the
structure error is rethrown with its prefix. Each record element is
normalized independently with its 1-based index. -/
def parseListRecordsXml (parsed : Option ListRecordsNode)
    (journalKey : Option JStr) (now : JStr) :
    Except JStr (List (List (String × JsVal))) :=
  match parsed with
  | none => .error (jstr "Failed to parse ListRecords XML: Invalid ListRecords XML structure")
  | some lr =>
    .ok ((lrRecords lr.record).enum.map
      (fun p => parseIndividualRecord p.2 (p.1 + 1) journalKey now))

/-- One successful HTTP ListRecords response as seen after
parseStringPromise: the raw body handed to the page callback, and the
parsed ListRecords element (absent when the body has no such element). -/
structure PageResponse where
  rawXml : JStr
  listRecords : Option ListRecordsNode

/-- Embeds the record counting of processListRecordsPage
(oaiDataProcessor.js lines 118-122): zero for a falsy record slot, the
array length for an array, one otherwise. -/
def recordsInPageOf (lr : ListRecordsNode) : Nat :=
  match lr.record with
  | .absent => 0
  | .single _ => 1
  | .arr rs => rs.length

/-- One page-callback invocation with its argument tuple
(rawXml, pageCount, recordsInPage, running total after this page). -/
structure CbCall where
  rawXml : JStr
  pageNumber : Nat
  recordsInPage : Nat
  totalAfter : Nat

/-- The page callback: receives the invocation arguments and either
returns or raises an error object. -/
abbrev Cb := JStr → Nat → Nat → Nat → Except JsError Unit

/-- Embeds processListRecordsPage (oaiDataProcessor.js lines 104-137):
when the parsed body has no ListRecords element the page yields zero
records and no token and the callback is not invoked; otherwise the
callback is awaited with the page data (the invocation is recorded even
when it raises, since its delivery side effects have already happened)
and the resumption token is extracted afterwards. Returns the recorded
invocation, if any, and either the raised error or the pair of the record
count and the new token. -/
def processListRecordsPage (resp : PageResponse) (pageCount : Nat) (cb : Cb)
    (total : Nat) : Option CbCall × Except JsError (Nat × Option JStr) :=
  match resp.listRecords with
  | none => (none, .ok (0, none))
  | some lr =>
    let n := recordsInPageOf lr
    match cb resp.rawXml pageCount n (total + n) with
    | .ok _ =>
      (some ⟨resp.rawXml, pageCount, n, total + n⟩,
       .ok (n, extractResumptionTokenFromParsed lr.resumptionToken))
    | .error e => (some ⟨resp.rawXml, pageCount, n, total + n⟩, .error e)

/-- Embeds handlePagination (oaiDataProcessor.js lines 142-151): keep a
truthy token (after the fixed delay, which has no observable effect in
this model), else end pagination. -/
def handlePagination (t : Option JStr) : Option JStr :=
  match t with
  | some s => if s.isEmpty then none else some s
  | none => none

/-- Outcome of one makeListRecordsRequest fetch (oaiDataProcessor.js
lines 82-99): the raised error for a network failure, a non-200 status or
an empty body, else the successful response. -/
inductive FetchOutcome where
  | fail (e : JsError)
  | ok (resp : PageResponse)

/-- Result object of processListRecords (oaiDataProcessor.js lines
202-220). -/
structure LRResult where
  pageCount : Nat
  totalRecordsProcessed : Nat
  success : Bool
  status : JStr
  errorCode : Option JStr
  errorMessage : Option JStr
deriving DecidableEq

/-- The result of the catch branch of processListRecords (lines 210-221):
counters reset to zero, classified error code, raised message. -/
def failResult (e : JsError) : LRResult :=
  ⟨0, 0, false, jstr "failed", some (getErrorCode (some e)), some e.message⟩

/-- The result of the success exit of processListRecords (lines 202-209). -/
def successResult (pageCount total : Nat) : LRResult :=
  ⟨pageCount, total, true, jstr "completed", none, none⟩

/-- Error raised when a fetch is attempted but the environment provides
no further response (a network failure such as a refused connection; the
claims under proof never reach this case). -/
def noResponseError : JsError :=
  ⟨none, some (jstr "ECONNREFUSED"), none, jstr "connect ECONNREFUSED"⟩

/-- Embeds the do-while pagination loop of processListRecords
(oaiDataProcessor.js lines 172-196) together with its surrounding
try-catch: one iteration increments the page counter, consumes the next
fetch outcome, processes the page (invoking the callback), accumulates
the record count, applies handlePagination to the extracted token, breaks
with success when the page counter has reached the cap, and otherwise
continues while a token is present. A raised error (fetch failure or
callback failure) is caught, producing the failure result; the callback
invocations already performed are returned alongside either way. -/
def lrLoop (cb : Cb) (maxPages : Nat) (pages : List FetchOutcome)
    (pageCount total : Nat) (trace : List CbCall) : LRResult × List CbCall :=
  match pages with
  | [] => (failResult noResponseError, trace)
  | p :: rest =>
    match p with
    | .fail e => (failResult e, trace)
    | .ok resp =>
      match processListRecordsPage resp (pageCount + 1) cb total with
      | (callO, .error e) => (failResult e, trace ++ callO.toList)
      | (callO, .ok (n, newTok)) =>
        if maxPages ≤ pageCount + 1 then
          (successResult (pageCount + 1) (total + n), trace ++ callO.toList)
        else
          match handlePagination newTok with
          | some _ => lrLoop cb maxPages rest (pageCount + 1) (total + n) (trace ++ callO.toList)
          | none => (successResult (pageCount + 1) (total + n), trace ++ callO.toList)

/-- Page cap set in the constructor (oaiDataProcessor.js line 7). -/
def defaultMaxPages : Nat := 1000

/-- Embeds processListRecords (oaiDataProcessor.js lines 160-222) for a
validated URL: run the pagination loop from the empty state against the
sequence of fetch outcomes the repository will produce, with the
constructor page cap. Returns the result object and the trace of page
callback invocations. -/
def processListRecords (pages : List FetchOutcome) (cb : Cb) :
    LRResult × List CbCall :=
  lrLoop cb defaultMaxPages pages 0 0 []

/-- Record count a page response contributes (zero when the body has no
ListRecords element). -/
def respCount (resp : PageResponse) : Nat :=
  match resp.listRecords with
  | some lr => recordsInPageOf lr
  | none => 0

/-- The pagination token the loop derives from a page response: the
extracted resumption token after the handlePagination truthiness check,
none when the body has no ListRecords element. -/
def pageTokenOf (resp : PageResponse) : Option JStr :=
  match resp.listRecords with
  | some lr => handlePagination (extractResumptionTokenFromParsed lr.resumptionToken)
  | none => none

/-- Whether a fetch outcome is a successful response whose body carries a
ListRecords element. -/
def fetchOkLR (f : FetchOutcome) : Bool :=
  match f with
  | .ok resp => resp.listRecords.isSome
  | .fail _ => false

/-- The pagination token derived from a fetch outcome. -/
def fetchToken (f : FetchOutcome) : Option JStr :=
  match f with
  | .ok resp => pageTokenOf resp
  | .fail _ => none

/-- Record count contributed by a fetch outcome. -/
def fetchCount (f : FetchOutcome) : Nat :=
  match f with
  | .ok resp => respCount resp
  | .fail _ => 0

/-- Raw body of a fetch outcome. -/
def fetchRawXml (f : FetchOutcome) : JStr :=
  match f with
  | .ok resp => resp.rawXml
  | .fail _ => []

/-- Sum of the record counts of a list of fetch outcomes. -/
def sumFetch (ps : List FetchOutcome) : Nat :=
  (ps.map fetchCount).sum

/-- The callback invocations the loop performs over a run of pages that
all carry a ListRecords element, starting from the given page number and
running total: page numbers increase by one and each invocation carries
the total including its own page. -/
def expectedCalls (startPage startTotal : Nat) (ps : List FetchOutcome) :
    List CbCall :=
  match ps with
  | [] => []
  | p :: rest =>
    ⟨fetchRawXml p, startPage + 1, fetchCount p, startTotal + fetchCount p⟩ ::
      expectedCalls (startPage + 1) (startTotal + fetchCount p) rest

/-- A page callback that always succeeds. -/
def cbOk : Cb := fun _ _ _ _ => .ok ()

/-- A plain Error object with the given message, as raised by a
JavaScript `throw new Error(msg)`. -/
def plainError (msg : JStr) : JsError := ⟨some (jstr "Error"), none, none, msg⟩

/-- A page callback that raises a plain Error with the given message on
its first page. -/
def cbThrowOnFirst (msg : JStr) : Cb :=
  fun _ pageNumber _ _ => if pageNumber = 1 then .error (plainError msg) else .ok ()

/-- A page response with the given raw body, record count (as an array of
that many record elements) and resumption token slot. -/
def mkResp (raw : JStr) (n : Nat) (tok : TokenField) : PageResponse :=
  ⟨raw, some ⟨.arr (List.replicate n (some ⟨⟨none, none, none⟩,
    ⟨none, none, none, none, none, none, none, none, none, none, none, none⟩⟩)), tok⟩⟩

/-- A page response whose body has no ListRecords element. -/
def noLRResp (raw : JStr) : PageResponse := ⟨raw, none⟩

/-- Helper: the batch chunking rebuilt by concatenation gives back the
input. -/
theorem chunkBatches_flatten {α : Type} (l : List α) :
    (chunkBatches l).flatten = l := by
  induction l using chunkBatches.induct with
  | case1 => simp [chunkBatches]
  | case2 a rest ih =>
    rw [chunkBatches]
    simp only [List.flatten_cons, ih, List.take_append_drop]

/-- Helper: number of batches is the rounded-up quotient. -/
theorem chunkBatches_length {α : Type} (l : List α) :
    (chunkBatches l).length = (l.length + (BATCH_SIZE - 1)) / BATCH_SIZE := by
  induction l using chunkBatches.induct with
  | case1 => simp [chunkBatches, BATCH_SIZE]
  | case2 a rest ih =>
    rw [chunkBatches]
    simp only [List.length_cons, ih, List.length_drop]
    simp only [BATCH_SIZE, List.length_cons]
    omega

/-- Helper: every batch is non-empty and of size at most BATCH_SIZE. -/
theorem chunkBatches_sizes {α : Type} (l : List α) :
    ∀ b ∈ chunkBatches l, 1 ≤ b.length ∧ b.length ≤ BATCH_SIZE := by
  induction l using chunkBatches.induct with
  | case1 => simp [chunkBatches]
  | case2 a rest ih =>
    rw [chunkBatches]
    intro b hb
    rcases List.mem_cons.mp hb with hb | hb
    · subst hb
      constructor
      · simp [BATCH_SIZE]
      · simp [List.length_take, BATCH_SIZE]
    · exact ih b hb

/-- Helper: every batch except possibly the last has size exactly
BATCH_SIZE. -/
theorem chunkBatches_full {α : Type} (l : List α) :
    ∀ b ∈ (chunkBatches l).dropLast, b.length = BATCH_SIZE := by
  induction l using chunkBatches.induct with
  | case1 => simp [chunkBatches]
  | case2 a rest ih =>
    rw [chunkBatches]
    cases hd : chunkBatches ((a :: rest).drop BATCH_SIZE) with
    | nil => simp
    | cons c cs =>
      intro b hb
      rw [List.dropLast_cons₂] at hb
      rcases List.mem_cons.mp hb with hb | hb
      · subst hb
        have hdrop : (a :: rest).drop BATCH_SIZE ≠ [] := by
          intro hnil
          rw [hnil] at hd
          simp [chunkBatches] at hd
        have hlen : BATCH_SIZE < (a :: rest).length := by
          by_contra hle
          push_neg at hle
          exact hdrop (List.drop_eq_nil_of_le hle)
        simp only [List.length_take, List.length_cons]
        simp only [BATCH_SIZE, List.length_cons] at *
        omega
      · exact ih b (by rw [hd]; exact hb)

/-- Helper: batch sizes on 125 records are exactly 50, 50, 25. -/
theorem chunkBatches_125 :
    (chunkBatches (List.range 125)).map List.length = [50, 50, 25] := by
  have hlen : (chunkBatches (List.range 125)).length = 3 := by
    rw [chunkBatches_length]
    simp [BATCH_SIZE, List.length_range]
  obtain ⟨b1, b2, b3, heq⟩ := List.length_eq_three.mp hlen
  have hfull := chunkBatches_full (List.range 125)
  rw [heq] at hfull
  have h1 : b1.length = BATCH_SIZE := hfull b1 (by simp)
  have h2 : b2.length = BATCH_SIZE := hfull b2 (by simp)
  have hfl := chunkBatches_flatten (List.range 125)
  rw [heq] at hfl
  have hfllen := congrArg List.length hfl
  simp only [List.flatten_cons, List.flatten_nil, List.length_append,
    List.length_nil, List.length_range] at hfllen
  have h3 : b3.length = 25 := by
    simp only [BATCH_SIZE] at h1 h2
    omega
  rw [heq]
  simp only [List.map_cons, List.map_nil, h1, h2, h3, BATCH_SIZE]

/-- C7: for every list of records the batch-assembly step of
createPageCallback produces ceil(n over 50) batches of size at most 50
(none empty), concatenating back to the input in order; the empty list
yields no batches, and 125 records yield batches of sizes 50, 50, 25. -/
theorem claim_C7_batch_assembly : ∀ (l : List Nat),
    (chunkBatches l).length = (l.length + (BATCH_SIZE - 1)) / BATCH_SIZE ∧
    (∀ b ∈ chunkBatches l, 1 ≤ b.length ∧ b.length ≤ BATCH_SIZE) ∧
    (chunkBatches l).flatten = l ∧
    (∀ b ∈ (chunkBatches l).dropLast, b.length = BATCH_SIZE) ∧
    chunkBatches ([] : List Nat) = [] ∧
    BATCH_SIZE = 50 ∧
    (chunkBatches (List.range 125)).map List.length = [50, 50, 25] := by
  intro l
  exact ⟨chunkBatches_length l, chunkBatches_sizes l, chunkBatches_flatten l,
    chunkBatches_full l, by simp [chunkBatches], rfl, chunkBatches_125⟩

/-- Witness for C7 at a concrete input: the single batch of a three
element list is non-empty and within capacity. -/
theorem claim_C7_batch_assembly_witness :
    1 ≤ ([0, 1, 2] : List Nat).length ∧ ([0, 1, 2] : List Nat).length ≤ BATCH_SIZE := by
  have hch : chunkBatches ([0, 1, 2] : List Nat) = [[0, 1, 2]] := by
    rw [chunkBatches]
    rw [List.drop_eq_nil_of_le (by simp [BATCH_SIZE])]
    rw [chunkBatches]
    rw [List.take_of_length_le (by simp [BATCH_SIZE])]
  exact (claim_C7_batch_assembly [0, 1, 2]).2.1 [0, 1, 2] (by rw [hch]; simp)

/-- C6: getErrorCode resolves by the fixed bucket precedence — OS and
network code map first, then the HTTP response-status map, then the
Axios-specific map, then the runtime-error-name map, then the
UNKNOWN_ERROR fallback; a null error yields UNKNOWN_ERROR, and an input
matching several buckets gets the earlier code, as for an AxiosError
whose code is ETIMEDOUT. -/
theorem claim_C6_error_precedence :
    getErrorCode none = jstr "UNKNOWN_ERROR" ∧
    (∀ e c, getNetworkErrorCode e = some c → getErrorCode (some e) = c) ∧
    (∀ e c, getNetworkErrorCode e = none → getHttpErrorCode e = some c →
      getErrorCode (some e) = c) ∧
    (∀ e c, getNetworkErrorCode e = none → getHttpErrorCode e = none →
      getAxiosErrorCode e = some c → getErrorCode (some e) = c) ∧
    (∀ e c, getNetworkErrorCode e = none → getHttpErrorCode e = none →
      getAxiosErrorCode e = none → getGenericErrorCode e = some c →
      getErrorCode (some e) = c) ∧
    (∀ e, getNetworkErrorCode e = none → getHttpErrorCode e = none →
      getAxiosErrorCode e = none → getGenericErrorCode e = none →
      getErrorCode (some e) = jstr "UNKNOWN_ERROR") ∧
    getErrorCode (some ⟨none, some (jstr "ECONNREFUSED"), none, []⟩) =
      jstr "CONNECTION_REFUSED" ∧
    getErrorCode (some ⟨none, none, some 404, []⟩) =
      jstr "HTTP_CLIENT_ERROR_404" ∧
    getErrorCode (some ⟨some (jstr "AxiosError"), some (jstr "ETIMEDOUT"), none, []⟩) =
      jstr "TIMEOUT_ERROR" := by
  refine ⟨rfl, ?_, ?_, ?_, ?_, ?_, by decide, by decide, by decide⟩
  · intro e c h
    simp [getErrorCode, h]
  · intro e c h1 h2
    simp [getErrorCode, h1, h2]
  · intro e c h1 h2 h3
    simp [getErrorCode, h1, h2, h3]
  · intro e c h1 h2 h3 h4
    simp [getErrorCode, h1, h2, h3, h4]
  · intro e h1 h2 h3 h4
    simp [getErrorCode, h1, h2, h3, h4]

/-- Witness for C6 at a concrete input: a DNS failure code resolves via
the network bucket. -/
theorem claim_C6_error_precedence_witness :
    getErrorCode (some ⟨none, some (jstr "ENOTFOUND"), none, []⟩) =
      jstr "DNS_RESOLUTION_FAILED" :=
  claim_C6_error_precedence.2.1 ⟨none, some (jstr "ENOTFOUND"), none, []⟩
    (jstr "DNS_RESOLUTION_FAILED") (by decide)

/-- C4 counterexample: for the non-empty absolute http URL
http://a.com, appending a trailing slash changes buildIdentifyUrl (the
slash survives the suffix normalization and yields a double slash). -/
theorem claim_C4_trailing_slash_cex :
    buildIdentifyUrl (jstr "http://a.com") ≠
      buildIdentifyUrl (jstr "http://a.com" ++ jstr "/") := by
  decide

/-- C4 amended: buildIdentifyUrl is unchanged by a trailing slash exactly
on the URLs the normalization step touches, namely those ending in /oai:
for every prefix p, buildIdentifyUrl of p ++ "/oai" and of
p ++ "/oai" ++ "/" agree. -/
theorem claim_C4_trailing_slash_on_oai (p : JStr) :
    buildIdentifyUrl (p ++ jstr "/oai") =
      buildIdentifyUrl (p ++ jstr "/oai" ++ jstr "/") := by
  have e4 : jstr "/oai" = ['/', 'o', 'a', 'i'] := rfl
  have e5 : jstr "/oai/" = ['/', 'o', 'a', 'i', '/'] := rfl
  have hassoc : p ++ jstr "/oai" ++ jstr "/" = p ++ jstr "/oai/" := by
    rw [e4, e5, List.append_assoc]
    rfl
  have h1 : (jstr "/oai/").isSuffixOf (p ++ jstr "/oai") = false := by
    cases hb : (jstr "/oai/").isSuffixOf (p ++ jstr "/oai") with
    | false => rfl
    | true =>
      exfalso
      rw [List.isSuffixOf_iff_suffix] at hb
      obtain ⟨t, ht⟩ := hb
      rw [e4, e5] at ht
      have hg := congrArg List.getLast? ht
      rw [List.getLast?_append, List.getLast?_append] at hg
      simp only [List.getLast?_cons_cons, List.getLast?_singleton] at hg
      simp at hg
  have h2 : (jstr "/oai").isSuffixOf (p ++ jstr "/oai") = true := by
    rw [List.isSuffixOf_iff_suffix]
    exact List.suffix_append p (jstr "/oai")
  have h3 : (jstr "/oai/").isSuffixOf (p ++ jstr "/oai" ++ jstr "/") = true := by
    rw [List.isSuffixOf_iff_suffix, hassoc]
    exact List.suffix_append p (jstr "/oai/")
  rw [buildIdentifyUrl, buildIdentifyUrl, replaceOaiSuffix, replaceOaiSuffix]
  rw [h1, h2, h3]
  simp only [Bool.false_eq_true, if_false, if_true]
  congr 1
  have hl4 : (p ++ jstr "/oai").length - 4 = p.length := by
    rw [e4]
    simp [List.length_append]
  have hl5 : (p ++ jstr "/oai" ++ jstr "/").length - 5 = p.length := by
    rw [hassoc, e5]
    simp [List.length_append]
  rw [hl4, hl5, hassoc, e4, e5]
  rw [List.take_left' rfl, List.take_left' rfl]

/-- Helper: membership in a cleaned object is membership in the raw
object with a kept value. -/
theorem mem_removeNullValues {kv : String × JsVal} {l : List (String × JsVal)} :
    kv ∈ removeNullValues l ↔ kv ∈ l ∧ keepVal kv.2 = true := by
  simp [removeNullValues, List.mem_filter]

/-- Helper: a kept value is neither null nor an empty array. -/
theorem keepVal_spec {v : JsVal} (h : keepVal v = true) :
    v ≠ JsVal.vnull ∧ ∀ l, v = JsVal.varr l → l ≠ [] := by
  cases v with
  | vnull => simp [keepVal] at h
  | varr l =>
    refine ⟨by simp, ?_⟩
    intro m hm
    cases hm
    simp [keepVal] at h
    simp [h]
  | vstr s => simp
  | vnum n => simp

/-- Helper: membership in a conditional entry names its key and demands a
truthy stored string. -/
theorem mem_condEntry_iff (kv : String × JsVal) (key : String) (o : Option JStr) :
    kv ∈ condEntry key o ↔
      kv.1 = key ∧ ∃ s, o = some s ∧ s ≠ [] ∧ kv.2 = JsVal.vstr s := by
  cases o with
  | none => simp [condEntry]
  | some s =>
    by_cases hs : s.isEmpty
    · have hnil : s = [] := by simpa using hs
      subst hnil
      simp [condEntry]
    · have hne : s ≠ [] := by simpa using hs
      cases kv with
      | mk k v =>
        simp only [condEntry, if_neg hs, List.mem_singleton, Prod.mk.injEq]
        constructor
        · rintro ⟨hk, hv⟩
          exact ⟨hk, s, rfl, hne, hv⟩
        · rintro ⟨hk, s2, hs2, _, hv⟩
          cases hs2
          exact ⟨hk, hv⟩

/-- Helper: the value stored under the title key of the article literal. -/
theorem articleEntries_title_val (r : OaiRecord) (jk : Option JStr) (now : JStr)
    (v : JsVal) (h : ("title", v) ∈ articleEntries r jk now) :
    v = optVal (extractValueWithLang r.dc.title).1 := by
  simp [articleEntries, mem_condEntry_iff] at h
  exact h

/-- Helper: a title_lang entry of the article literal comes from a truthy
extracted title language. -/
theorem articleEntries_titleLang (r : OaiRecord) (jk : Option JStr) (now : JStr)
    (v : JsVal) (h : ("title_lang", v) ∈ articleEntries r jk now) :
    ∃ s, (extractValueWithLang r.dc.title).2 = some s ∧ s ≠ [] ∧
      v = JsVal.vstr s := by
  simp [articleEntries, mem_condEntry_iff] at h
  exact h

/-- Helper: the value stored under the subjects key of the article
literal. -/
theorem articleEntries_subjects_val (r : OaiRecord) (jk : Option JStr) (now : JStr)
    (v : JsVal) (h : ("subjects", v) ∈ articleEntries r jk now) :
    v = JsVal.varr (extractArrayValue r.dc.subject) := by
  simp [articleEntries, mem_condEntry_iff] at h
  exact h

/-- Helper: the value stored under the creator key of the article
literal. -/
theorem articleEntries_creator_val (r : OaiRecord) (jk : Option JStr) (now : JStr)
    (v : JsVal) (h : ("creator", v) ∈ articleEntries r jk now) :
    v = optVal (extractValue r.dc.creator) := by
  simp [articleEntries, mem_condEntry_iff] at h
  exact h

/-- C3: every key of a record produced by parseIndividualRecord (and by
parseIdentifyXml) is bound to a value that is neither null nor undefined
nor an empty list; in particular a record with no dc:title yields an
output containing neither title nor its language sibling title_lang. -/
theorem claim_C3_no_null_fields :
    (∀ (rec : Option OaiRecord) (idx : Nat) (jk : JStr) (now : JStr),
      ∀ kv ∈ parseIndividualRecord rec idx (some jk) now,
        kv.2 ≠ JsVal.vnull ∧ ∀ l, kv.2 = JsVal.varr l → l ≠ []) ∧
    (∀ (parsed : Option IdentifyNode) (jk : Option JStr) (now : JStr) out,
      parseIdentifyXml parsed jk now = .ok out →
      ∀ kv ∈ out, kv.2 ≠ JsVal.vnull ∧ ∀ l, kv.2 = JsVal.varr l → l ≠ []) ∧
    (∀ (r : OaiRecord) (idx : Nat) (jk : Option JStr) (now : JStr),
      r.dc.title = none →
      "title" ∉ (parseIndividualRecord (some r) idx jk now).map Prod.fst ∧
      "title_lang" ∉ (parseIndividualRecord (some r) idx jk now).map Prod.fst) := by
  refine ⟨?_, ?_, ?_⟩
  · intro rec idx jk now kv hkv
    cases rec with
    | some r =>
      exact keepVal_spec (mem_removeNullValues.mp hkv).2
    | none =>
      simp [parseIndividualRecord, parseErrorRecord, optVal] at hkv
      rcases hkv with h | h | h | h | h | h <;> rw [h] <;> simp
  · intro parsed jk now out hout kv hkv
    cases parsed with
    | none => simp [parseIdentifyXml] at hout
    | some idn =>
      simp only [parseIdentifyXml, Except.ok.injEq] at hout
      rw [← hout] at hkv
      exact keepVal_spec (mem_removeNullValues.mp hkv).2
  · intro r idx jk now htitle
    constructor
    · intro hmem
      rw [List.mem_map] at hmem
      obtain ⟨kv, hkv, hfst⟩ := hmem
      obtain ⟨hin, hkeep⟩ := mem_removeNullValues.mp hkv
      cases kv with
      | mk k v =>
        cases hfst
        have hv := articleEntries_title_val r jk now v hin
        rw [hv, htitle] at hkeep
        simp [extractValueWithLang, optVal, keepVal] at hkeep
    · intro hmem
      rw [List.mem_map] at hmem
      obtain ⟨kv, hkv, hfst⟩ := hmem
      obtain ⟨hin, _⟩ := mem_removeNullValues.mp hkv
      cases kv with
      | mk k v =>
        cases hfst
        obtain ⟨s, hs, _, _⟩ := articleEntries_titleLang r jk now v hin
        rw [htitle] at hs
        simp [extractValueWithLang] at hs

/-- Witness for C3 at a concrete record: the normalized empty record
keeps its provenance entries non-null. -/
theorem claim_C3_no_null_fields_witness :
    ∀ kv ∈ parseIndividualRecord
      (some ⟨⟨none, none, none⟩,
        ⟨none, none, none, none, none, none, none, none, none, none, none, none⟩⟩)
      1 (some (jstr "jk")) (jstr "now"),
      kv.2 ≠ JsVal.vnull ∧ ∀ l, kv.2 = JsVal.varr l → l ≠ [] :=
  claim_C3_no_null_fields.1
    (some ⟨⟨none, none, none⟩,
      ⟨none, none, none, none, none, none, none, none, none, none, none, none⟩⟩)
    1 (jstr "jk") (jstr "now")

/-- Helper: extracting an array field whose entries are non-empty strings
trims each entry, preserving count and order. -/
theorem extractArrayValue_strs (vals : List JStr) (hvals : ∀ s ∈ vals, s ≠ []) :
    extractArrayValue (some (.farr (vals.map .lstr))) = vals.map jsTrim := by
  induction vals with
  | nil => simp [extractArrayValue]
  | cons a rest ih =>
    have ha : a.isEmpty = false := by simpa using hvals a (by simp)
    have ih2 := ih (fun s hs => hvals s (List.mem_cons_of_mem a hs))
    simp only [extractArrayValue, List.map_cons, List.map_map] at ih2 ⊢
    simp [extractLeafValue, ha, ih2]

/-- C5 counterexample: the claim fails when a subject or creator value is
the empty string, and for an empty subject list. A record whose
dc:subject is a one-element list holding the empty string produces no
subjects field at all (not a list of length one); likewise an empty
subject list yields no subjects field, and a creator list whose first
value is the empty string yields no creator field. -/
theorem claim_C5_first_values_cex :
    ("subjects" ∉ (parseIndividualRecord
      (some ⟨⟨none, none, none⟩,
        ⟨none, none, some (.farr [.lstr []]), none, none, none, none, none, none,
          none, none, none⟩⟩) 1 (some (jstr "jk")) (jstr "now")).map Prod.fst) ∧
    ("subjects" ∉ (parseIndividualRecord
      (some ⟨⟨none, none, none⟩,
        ⟨none, none, some (.farr []), none, none, none, none, none, none,
          none, none, none⟩⟩) 1 (some (jstr "jk")) (jstr "now")).map Prod.fst) ∧
    ("creator" ∉ (parseIndividualRecord
      (some ⟨⟨none, none, none⟩,
        ⟨none, some (.farr [.lstr []]), none, none, none, none, none, none, none,
          none, none, none⟩⟩) 1 (some (jstr "jk")) (jstr "now")).map Prod.fst) := by
  decide

/-- C5 amended: for every parsed record whose dc:subject holds a
non-empty list of non-empty string values and whose dc:creator holds a
list of string values with a non-empty first value, the normalized record
binds subjects to the ordered list of the trimmed subject values (same
length, source order) and creator to the trimmed first creator value
only. -/
theorem claim_C5_subjects_creator (r : OaiRecord) (idx : Nat) (jk : Option JStr)
    (now : JStr) (subs : List JStr) (c0 : JStr) (crest : List JStr)
    (hsub : r.dc.subject = some (.farr (subs.map .lstr)))
    (hcre : r.dc.creator = some (.farr ((c0 :: crest).map .lstr)))
    (hsubne : subs ≠ []) (hsubvals : ∀ s ∈ subs, s ≠ []) (hc0 : c0 ≠ []) :
    ("subjects", JsVal.varr (subs.map jsTrim)) ∈
      parseIndividualRecord (some r) idx jk now ∧
    (∀ v, ("subjects", v) ∈ parseIndividualRecord (some r) idx jk now →
      v = JsVal.varr (subs.map jsTrim)) ∧
    (subs.map jsTrim).length = subs.length ∧
    ("creator", JsVal.vstr (jsTrim c0)) ∈
      parseIndividualRecord (some r) idx jk now ∧
    (∀ v, ("creator", v) ∈ parseIndividualRecord (some r) idx jk now →
      v = JsVal.vstr (jsTrim c0)) := by
  have hsubarr : extractArrayValue r.dc.subject = subs.map jsTrim := by
    rw [hsub]
    exact extractArrayValue_strs subs hsubvals
  have hc0e : c0.isEmpty = false := by simpa using hc0
  have hcrext : extractValue r.dc.creator = some (jsTrim c0) := by
    rw [hcre]
    simp [extractValue, extractLeafValue, hc0e]
  refine ⟨?_, ?_, List.length_map subs jsTrim, ?_, ?_⟩
  · apply mem_removeNullValues.mpr
    constructor
    · simp [articleEntries, hsubarr]
    · simp [keepVal, hsubne]
  · intro v hv
    have := articleEntries_subjects_val r jk now v (mem_removeNullValues.mp hv).1
    rw [this, hsubarr]
  · apply mem_removeNullValues.mpr
    constructor
    · simp [articleEntries, hcrext, optVal]
    · simp [keepVal]
  · intro v hv
    have := articleEntries_creator_val r jk now v (mem_removeNullValues.mp hv).1
    rw [this, hcrext]
    simp [optVal]

/-- Witness for C5 at a concrete record with two subjects and two
creators: subjects keeps both trimmed values, creator keeps the first. -/
theorem claim_C5_subjects_creator_witness :
    ("subjects", JsVal.varr ([jstr "s1", jstr "s2"].map jsTrim)) ∈
      parseIndividualRecord
        (some ⟨⟨none, none, none⟩,
          ⟨none, some (.farr ([jstr "c1", jstr "c2"].map .lstr)),
            some (.farr ([jstr "s1", jstr "s2"].map .lstr)), none, none, none,
            none, none, none, none, none, none⟩⟩)
        1 (some (jstr "jk")) (jstr "now") :=
  (claim_C5_subjects_creator
    ⟨⟨none, none, none⟩,
      ⟨none, some (.farr ([jstr "c1", jstr "c2"].map .lstr)),
        some (.farr ([jstr "s1", jstr "s2"].map .lstr)), none, none, none,
        none, none, none, none, none, none⟩⟩
    1 (some (jstr "jk")) (jstr "now") [jstr "s1", jstr "s2"] (jstr "c1") [jstr "c2"]
    rfl rfl (by decide) (by decide) (by decide)).1

/-- C9: a page whose ListRecords element holds n record entries always
normalizes to exactly n output records; a position whose record fails
normalization (a null element) yields the fallback record carrying the
journal key, creation time, type, 1-based index, failure message and
parse_error status, and no exception propagates. -/
theorem claim_C9_record_fallback (rs : List (Option OaiRecord)) (tok : TokenField)
    (jk : Option JStr) (now : JStr) :
    ∀ out, parseListRecordsXml (some ⟨.arr rs, tok⟩) jk now = .ok out →
      out.length = rs.length ∧
      (∀ i (hi : i < rs.length) (hio : i < out.length),
        rs[i] = none →
        out[i] = [("journal_key", optVal jk),
                  ("created_at", JsVal.vstr now),
                  ("type", JsVal.vstr (jstr "ListRecords")),
                  ("recordIndex", JsVal.vnum (i + 1)),
                  ("error", JsVal.vstr nullHeaderMsg),
                  ("status", JsVal.vstr (jstr "parse_error"))]) ∧
      (∀ i (hi : i < rs.length) (hio : i < out.length) r,
        rs[i] = some r →
        out[i] = parseIndividualRecord (some r) (i + 1) jk now) := by
  intro out hout
  simp only [parseListRecordsXml, lrRecords, Except.ok.injEq] at hout
  subst hout
  refine ⟨by simp, ?_, ?_⟩
  · intro i hi hio hnone
    simp [List.getElem_map, List.getElem_enum, hnone, parseIndividualRecord,
      parseErrorRecord]
  · intro i hi hio r hr
    simp [List.getElem_map, List.getElem_enum, hr]

/-- Witness for C9 at a concrete page with one null record element. -/
theorem claim_C9_record_fallback_witness :
    ([parseIndividualRecord none 1 (some (jstr "jk")) (jstr "now")]).length =
      ([none] : List (Option OaiRecord)).length :=
  (claim_C9_record_fallback [none] .absent (some (jstr "jk")) (jstr "now")
    [parseIndividualRecord none 1 (some (jstr "jk")) (jstr "now")] rfl).1

/-- Helper: record-count sums distribute over appended fetch runs. -/
theorem sumFetch_append (xs ys : List FetchOutcome) :
    sumFetch (xs ++ ys) = sumFetch xs + sumFetch ys := by
  simp [sumFetch]

/-- Helper: one expected callback per page response. -/
theorem expectedCalls_length (sp st : Nat) (ps : List FetchOutcome) :
    (expectedCalls sp st ps).length = ps.length := by
  induction ps generalizing sp st with
  | nil => simp [expectedCalls]
  | cons p rest ih => simp [expectedCalls, ih]

/-- Helper: expected callback traces decompose over appended fetch runs,
with page numbers and running totals carried across. -/
theorem expectedCalls_append (xs ys : List FetchOutcome) (sp st : Nat) :
    expectedCalls sp st (xs ++ ys) =
      expectedCalls sp st xs ++ expectedCalls (sp + xs.length) (st + sumFetch xs) ys := by
  induction xs generalizing sp st with
  | nil => simp [expectedCalls, sumFetch]
  | cons x rest ih =>
    simp only [List.cons_append, expectedCalls, List.length_cons, List.append_eq]
    rw [ih]
    rw [(by omega : sp + 1 + rest.length = sp + (rest.length + 1))]
    rw [(by simp [sumFetch]; omega :
      st + fetchCount x + sumFetch rest = st + sumFetch (x :: rest))]

/-- Helper: the pagination loop traverses a run of successful pages that
all carry a ListRecords element and a resumption token (with a callback
that completes normally) by accumulating page count, record total and
one callback invocation per page, then continues on the remaining fetch
outcomes. -/
theorem lrLoop_token_pages (cb : Cb) (cap : Nat)
    (hcb : ∀ x p n t, cb x p n t = .ok ()) :
    ∀ (ps tail : List FetchOutcome) (pc total : Nat) (trace : List CbCall),
      (∀ f ∈ ps, fetchOkLR f = true ∧ fetchToken f ≠ none) →
      pc + ps.length < cap →
      lrLoop cb cap (ps ++ tail) pc total trace =
        lrLoop cb cap tail (pc + ps.length) (total + sumFetch ps)
          (trace ++ expectedCalls pc total ps) := by
  intro ps
  induction ps with
  | nil =>
    intro tail pc total trace hps hfit
    simp [sumFetch, expectedCalls]
  | cons p rest ih =>
    intro tail pc total trace hps hfit
    obtain ⟨hok, htok⟩ := hps p (by simp)
    simp only [List.length_cons] at hfit
    cases p with
    | fail e => simp [fetchOkLR] at hok
    | ok resp =>
      cases hlr : resp.listRecords with
      | none =>
        simp only [fetchOkLR, hlr, Option.isSome_none] at hok
        exact absurd hok (by simp)
      | some lr =>
        simp only [fetchToken, pageTokenOf, hlr] at htok
        rw [List.cons_append, lrLoop]
        simp only [processListRecordsPage, hlr, hcb]
        rw [if_neg (by omega : ¬ (cap ≤ pc + 1))]
        rcases hh : handlePagination
            (extractResumptionTokenFromParsed lr.resumptionToken) with _ | s
        · exact absurd hh htok
        · rw [ih tail (pc + 1) (total + recordsInPageOf lr) _
            (fun f hf => hps f (List.mem_cons_of_mem _ hf)) (by omega)]
          rw [(by simp only [List.length_cons]; omega :
            pc + 1 + rest.length = pc + (FetchOutcome.ok resp :: rest).length)]
          rw [(by simp [sumFetch, fetchCount, respCount, hlr]; omega :
            total + recordsInPageOf lr + sumFetch rest =
              total + sumFetch (FetchOutcome.ok resp :: rest))]
          rw [(by simp [expectedCalls, fetchRawXml, fetchCount, respCount, hlr] :
            (trace ++ Option.toList (some
              (⟨resp.rawXml, pc + 1, recordsInPageOf lr,
                total + recordsInPageOf lr⟩ : CbCall))) ++
              expectedCalls (pc + 1) (total + recordsInPageOf lr) rest =
            trace ++ expectedCalls pc total (FetchOutcome.ok resp :: rest))]

/-- Helper: the iteration on a page carrying a ListRecords element whose
derived pagination token is absent exits with success, provided the page
counter stays within the cap and the callback completes. -/
theorem lrLoop_last_page (cb : Cb) (cap : Nat)
    (hcb : ∀ x p n t, cb x p n t = .ok ())
    (resp : PageResponse) (lr : ListRecordsNode) (rest : List FetchOutcome)
    (pc total : Nat) (trace : List CbCall)
    (hlr : resp.listRecords = some lr)
    (hlast : pageTokenOf resp = none) :
    lrLoop cb cap (.ok resp :: rest) pc total trace =
      (successResult (pc + 1) (total + recordsInPageOf lr),
       trace ++ [⟨resp.rawXml, pc + 1, recordsInPageOf lr,
         total + recordsInPageOf lr⟩]) := by
  simp only [pageTokenOf, hlr] at hlast
  rw [lrLoop]
  simp only [processListRecordsPage, hlr, hcb]
  by_cases hc : cap ≤ pc + 1
  · rw [if_pos hc]
    simp
  · rw [if_neg hc, hlast]
    simp

/-- Helper: the iteration on a page carrying a ListRecords element exits
with success once the incremented page counter reaches the cap, token or
not. -/
theorem lrLoop_cap_step (cb : Cb) (cap : Nat)
    (hcb : ∀ x p n t, cb x p n t = .ok ())
    (resp : PageResponse) (lr : ListRecordsNode) (rest : List FetchOutcome)
    (pc total : Nat) (trace : List CbCall)
    (hlr : resp.listRecords = some lr)
    (hc : cap ≤ pc + 1) :
    lrLoop cb cap (.ok resp :: rest) pc total trace =
      (successResult (pc + 1) (total + recordsInPageOf lr),
       trace ++ [⟨resp.rawXml, pc + 1, recordsInPageOf lr,
         total + recordsInPageOf lr⟩]) := by
  rw [lrLoop]
  simp only [processListRecordsPage, hlr, hcb]
  rw [if_pos hc]
  simp

/-- Helper: the iteration on a page whose body has no ListRecords element
skips the callback, counts the page, contributes no records and exits
with success (no token is derived). -/
theorem lrLoop_noLR_page (cb : Cb) (cap : Nat)
    (resp : PageResponse) (rest : List FetchOutcome)
    (pc total : Nat) (trace : List CbCall)
    (hnolr : resp.listRecords = none) :
    lrLoop cb cap (.ok resp :: rest) pc total trace =
      (successResult (pc + 1) total, trace) := by
  rw [lrLoop]
  simp only [processListRecordsPage, hnolr]
  by_cases hc : cap ≤ pc + 1
  · rw [if_pos hc]
    simp
  · rw [if_neg hc]
    simp [handlePagination]

/-- C2 counterexample: a callback raising a plain Error with message
boom on page 1 produces errorCode UNKNOWN_ERROR (the classifier fallback
for a plain Error), not LISTRECORDS_PROCESSING_ERROR as the claim
states; the other claimed components do hold. -/
theorem claim_C2_errorcode_cex :
    (processListRecords [.ok (mkResp [] 2 .absent)]
        (cbThrowOnFirst (jstr "boom"))).1 =
      ⟨0, 0, false, jstr "failed", some (jstr "UNKNOWN_ERROR"), some (jstr "boom")⟩ ∧
    (jstr "UNKNOWN_ERROR") ≠ (jstr "LISTRECORDS_PROCESSING_ERROR") := by
  refine ⟨by decide, by decide⟩

/-- C2 amended: when the page callback raises an error e on the first
page (after the first fetch succeeded with a ListRecords element),
processListRecords returns success false with pageCount 0,
totalRecordsProcessed 0, status failed, errorCode the classified code of
e (UNKNOWN_ERROR for a plain Error) and errorMessage the raised message,
while the already performed first-page invocation is retained (its
delivery is not rolled back). -/
theorem claim_C2_callback_failure (resp : PageResponse) (rest : List FetchOutcome)
    (cb : Cb) (lr : ListRecordsNode) (e : JsError)
    (hlr : resp.listRecords = some lr)
    (hcb : cb resp.rawXml 1 (recordsInPageOf lr) (recordsInPageOf lr) = .error e) :
    processListRecords (.ok resp :: rest) cb =
      (⟨0, 0, false, jstr "failed", some (getErrorCode (some e)), some e.message⟩,
       [⟨resp.rawXml, 1, recordsInPageOf lr, recordsInPageOf lr⟩]) := by
  rw [processListRecords, lrLoop]
  simp only [processListRecordsPage, hlr, Nat.zero_add, hcb]
  simp [failResult]

/-- Witness for C2 at a concrete page and callback. -/
theorem claim_C2_callback_failure_witness :
    processListRecords [.ok (mkResp [] 2 .absent)] (cbThrowOnFirst (jstr "x")) =
      (⟨0, 0, false, jstr "failed",
        some (getErrorCode (some (plainError (jstr "x")))),
        some (plainError (jstr "x")).message⟩,
       [⟨[], 1, 2, 2⟩]) := by
  have h := claim_C2_callback_failure (mkResp [] 2 .absent) []
    (cbThrowOnFirst (jstr "x"))
    ⟨.arr (List.replicate 2 (some ⟨⟨none, none, none⟩,
      ⟨none, none, none, none, none, none, none, none, none, none, none, none⟩⟩)),
     .absent⟩
    (plainError (jstr "x")) rfl rfl
  simpa [mkResp] using h

set_option maxRecDepth 100000 in
/-- C1 counterexample: a sequence of 1001 successful responses in which
every page except the last carries a resumption token runs into the page
cap: processListRecords stops at pageCount 1000, not 1001, and a
callback that raises turns such a run into a failure, so the claim as
stated (for every P, with any callback behavior) is false. -/
theorem claim_C1_pagination_cex :
    (List.replicate 1000 (FetchOutcome.ok (mkResp [] 0 (.tstr (jstr "t")))) ++
      [FetchOutcome.ok (mkResp [] 0 .absent)]).length = 1001 ∧
    (processListRecords
      (List.replicate 1000 (FetchOutcome.ok (mkResp [] 0 (.tstr (jstr "t")))) ++
        [FetchOutcome.ok (mkResp [] 0 .absent)]) cbOk).1 =
      successResult 1000 0 ∧
    (1000 : Nat) ≠ 1001 ∧
    (processListRecords [FetchOutcome.ok (mkResp [] 0 .absent)]
      (cbThrowOnFirst (jstr "boom"))).1.success = false := by
  refine ⟨by simp, by decide, by decide, by decide⟩

/-- C1 amended: for every sequence of P = front.length + 1 successful
responses in which every page carries a ListRecords element, every page
except the last carries a resumption token and the last does not,
provided P does not exceed the page cap and the page callback completes
normally, processListRecords returns success with pageCount P and
totalRecordsProcessed the sum of the per-page record counts, invoking
the callback exactly once per page with the running total after that
page. -/
theorem claim_C1_pagination_totals (front : List FetchOutcome)
    (lastR : PageResponse) (lr : ListRecordsNode) (cb : Cb)
    (hcb : ∀ x p n t, cb x p n t = .ok ())
    (hfront : ∀ f ∈ front, fetchOkLR f = true ∧ fetchToken f ≠ none)
    (hlr : lastR.listRecords = some lr)
    (hlast : pageTokenOf lastR = none)
    (hcap : front.length + 1 ≤ defaultMaxPages) :
    processListRecords (front ++ [.ok lastR]) cb =
      (successResult (front.length + 1) (sumFetch (front ++ [.ok lastR])),
       expectedCalls 0 0 (front ++ [.ok lastR])) ∧
    (expectedCalls 0 0 (front ++ [.ok lastR])).length = front.length + 1 := by
  constructor
  · rw [processListRecords]
    rw [lrLoop_token_pages cb defaultMaxPages hcb front [.ok lastR] 0 0 []
      hfront (by omega)]
    rw [lrLoop_last_page cb defaultMaxPages hcb lastR lr [] (0 + front.length)
      (0 + sumFetch front) _ hlr hlast]
    rw [expectedCalls_append, sumFetch_append]
    simp [expectedCalls, sumFetch, fetchCount, respCount, fetchRawXml, hlr]
  · rw [expectedCalls_length]
    simp

/-- Witness for C1 at a concrete one-page sequence with two records. -/
theorem claim_C1_pagination_totals_witness :
    processListRecords [FetchOutcome.ok (mkResp (jstr "x") 2 .absent)] cbOk =
      (successResult 1 (sumFetch [FetchOutcome.ok (mkResp (jstr "x") 2 .absent)]),
       expectedCalls 0 0 [FetchOutcome.ok (mkResp (jstr "x") 2 .absent)]) := by
  have h := claim_C1_pagination_totals [] (mkResp (jstr "x") 2 .absent)
    ⟨.arr (List.replicate 2 (some ⟨⟨none, none, none⟩,
      ⟨none, none, none, none, none, none, none, none, none, none, none, none⟩⟩)),
     .absent⟩
    cbOk (fun _ _ _ _ => rfl) (by simp) rfl rfl (by decide)
  simpa using h.1

/-- C10: a fetched page whose parsed body has no ListRecords element does
not trigger the page callback at all, yet is counted in pageCount and the
call returns success, so the number of callback invocations is strictly
below the reported pageCount. -/
theorem claim_C10_page_without_listrecords (front : List FetchOutcome)
    (resp : PageResponse) (rest : List FetchOutcome) (cb : Cb)
    (hcb : ∀ x p n t, cb x p n t = .ok ())
    (hfront : ∀ f ∈ front, fetchOkLR f = true ∧ fetchToken f ≠ none)
    (hnolr : resp.listRecords = none)
    (hcap : front.length + 1 ≤ defaultMaxPages) :
    processListRecords (front ++ .ok resp :: rest) cb =
      (successResult (front.length + 1) (sumFetch front),
       expectedCalls 0 0 front) ∧
    (expectedCalls 0 0 front).length = front.length ∧
    front.length < front.length + 1 := by
  refine ⟨?_, expectedCalls_length 0 0 front, by omega⟩
  rw [processListRecords]
  rw [lrLoop_token_pages cb defaultMaxPages hcb front (.ok resp :: rest) 0 0 []
    hfront (by omega)]
  rw [lrLoop_noLR_page cb defaultMaxPages resp rest _ _ _ hnolr]
  simp

/-- Witness for C10 at a concrete sequence: one token page then a page
with no ListRecords element; pageCount is 2, the callback ran once. -/
theorem claim_C10_page_without_listrecords_witness :
    processListRecords
      [FetchOutcome.ok (mkResp (jstr "x") 3 (.tstr (jstr "t"))),
       FetchOutcome.ok (noLRResp (jstr "y"))] cbOk =
      (successResult 2 (sumFetch [FetchOutcome.ok (mkResp (jstr "x") 3 (.tstr (jstr "t")))]),
       expectedCalls 0 0 [FetchOutcome.ok (mkResp (jstr "x") 3 (.tstr (jstr "t")))]) := by
  have h := claim_C10_page_without_listrecords
    [FetchOutcome.ok (mkResp (jstr "x") 3 (.tstr (jstr "t")))]
    (noLRResp (jstr "y")) [] cbOk (fun _ _ _ _ => rfl) (by decide) rfl (by decide)
  simpa using h.1

/-- Helper: against a supply of successful token-bearing pages at least
as long as the cap, the pagination loop from the initial state stops at
exactly cap pages, reporting success with the record total of the first
cap pages and one callback per fetched page. -/
theorem lrLoop_cap_run (cb : Cb) (cap : Nat)
    (hcb : ∀ x p n t, cb x p n t = .ok ()) (hcap : 1 ≤ cap) :
    ∀ q : List FetchOutcome, cap ≤ q.length →
      (∀ f ∈ q, fetchOkLR f = true ∧ fetchToken f ≠ none) →
      lrLoop cb cap q 0 0 [] =
        (successResult cap (sumFetch (q.take cap)),
         expectedCalls 0 0 (q.take cap)) := by
  intro q hqlen hq
  have hdrop : q.drop (cap - 1) ≠ [] := by
    intro hnil
    rw [List.drop_eq_nil_iff] at hnil
    omega
  obtain ⟨t0, rest2, hd⟩ := List.exists_cons_of_ne_nil hdrop
  have ht0mem : t0 ∈ q := List.drop_subset (cap - 1) q (by rw [hd]; simp)
  obtain ⟨hok0, _⟩ := hq t0 ht0mem
  have htklen : (q.take (cap - 1)).length = cap - 1 := by
    rw [List.length_take]
    omega
  cases t0 with
  | fail e => simp [fetchOkLR] at hok0
  | ok resp =>
    cases hlr : resp.listRecords with
    | none =>
      simp only [fetchOkLR, hlr, Option.isSome_none] at hok0
      exact absurd hok0 (by simp)
    | some lr =>
      have hsplit : q = q.take (cap - 1) ++ FetchOutcome.ok resp :: rest2 := by
        rw [← hd, List.take_append_drop]
      have htake : q.take cap = q.take (cap - 1) ++ [FetchOutcome.ok resp] := by
        rw [(by omega : cap = (cap - 1) + 1), List.take_add, hd]
        simp
      have hrun : lrLoop cb cap q 0 0 [] =
          (successResult cap
            (sumFetch (q.take (cap - 1)) + recordsInPageOf lr),
           expectedCalls 0 0 (q.take (cap - 1)) ++
             [⟨resp.rawXml, cap, recordsInPageOf lr,
               sumFetch (q.take (cap - 1)) + recordsInPageOf lr⟩]) := by
        conv_lhs => rw [hsplit]
        rw [lrLoop_token_pages cb cap hcb (q.take (cap - 1)) _ 0 0 []
          (fun f hf => hq f (List.take_subset (cap - 1) q hf))
          (by omega)]
        rw [lrLoop_cap_step cb cap hcb resp lr rest2 _ _ _ hlr (by omega)]
        rw [htklen]
        rw [(by omega : 0 + (cap - 1) + 1 = cap)]
        simp
      rw [hrun, htake, expectedCalls_append, sumFetch_append]
      rw [htklen]
      simp [expectedCalls, sumFetch, fetchCount, respCount, fetchRawXml, hlr]
      omega

/-- C8: when every successfully fetched page carries a resumption token,
the loop is bounded by the page cap: it performs exactly cap page
fetches (only the first cap fetch outcomes matter), returns success with
pageCount equal to the cap and no error fields — the same result shape
as normal exhaustion — and the constructor default for the cap is 1000,
as used by processListRecords. -/
theorem claim_C8_page_cap (cap : Nat) (pages : List FetchOutcome) (cb : Cb)
    (hcb : ∀ x p n t, cb x p n t = .ok ())
    (hcap : 1 ≤ cap) (hlen : cap ≤ pages.length)
    (hpages : ∀ f ∈ pages, fetchOkLR f = true ∧ fetchToken f ≠ none) :
    lrLoop cb cap pages 0 0 [] =
      (successResult cap (sumFetch (pages.take cap)),
       expectedCalls 0 0 (pages.take cap)) ∧
    lrLoop cb cap pages 0 0 [] = lrLoop cb cap (pages.take cap) 0 0 [] ∧
    defaultMaxPages = 1000 ∧
    processListRecords pages cb = lrLoop cb defaultMaxPages pages 0 0 [] := by
  have h1 := lrLoop_cap_run cb cap hcb hcap pages hlen hpages
  have h2 := lrLoop_cap_run cb cap hcb hcap (pages.take cap)
    (by rw [List.length_take]; omega)
    (fun f hf => hpages f (List.take_subset cap pages hf))
  rw [List.take_take, Nat.min_self] at h2
  exact ⟨h1, h1.trans h2.symm, rfl, rfl⟩

/-- Witness for C8 at cap 1 against two token pages: the run stops at
one page with success. -/
theorem claim_C8_page_cap_witness :
    lrLoop cbOk 1
      [FetchOutcome.ok (mkResp (jstr "x") 2 (.tstr (jstr "t"))),
       FetchOutcome.ok (mkResp (jstr "y") 5 (.tstr (jstr "u")))] 0 0 [] =
      (successResult 1 (sumFetch ([FetchOutcome.ok (mkResp (jstr "x") 2 (.tstr (jstr "t"))),
          FetchOutcome.ok (mkResp (jstr "y") 5 (.tstr (jstr "u")))].take 1)),
       expectedCalls 0 0 ([FetchOutcome.ok (mkResp (jstr "x") 2 (.tstr (jstr "t"))),
          FetchOutcome.ok (mkResp (jstr "y") 5 (.tstr (jstr "u")))].take 1)) :=
  (claim_C8_page_cap 1
    [FetchOutcome.ok (mkResp (jstr "x") 2 (.tstr (jstr "t"))),
     FetchOutcome.ok (mkResp (jstr "y") 5 (.tstr (jstr "u")))]
    cbOk (fun _ _ _ _ => rfl) (by decide) (by decide) (by decide)).1
